import Mathlib

/-!
Shallow embedding of the data-access and security layer of the
gestao-clinica appointment tracker (the repository files `db.py` and
`security.py`), together with theorems settling the specification claims.

Modelling conventions:
* Python strings are `List Char`.
* The SQLite store is an explicit `DBState` record threaded through each
  operation; `CURRENT_TIMESTAMP` is a `Nat` argument supplied by the caller
  at each call site (the wall clock is external input).
* SQLite's BINARY collation on the ASCII text stored by this program is
  plain code-point lexicographic comparison, modelled by `lexLe`.
* `datetime.strptime` is modelled by the character-class semantics of
  CPython's `_strptime` regular expressions (quoted at each definition).
-/

namespace GestaoClinica

/-! ### Python string helpers -/

/-- Whitespace as treated by Python `str.split()` / `str.strip()`, restricted
to the ASCII whitespace characters. -/
def pyIsSpace (c : Char) : Bool :=
  c == ' ' || c == '\t' || c == '\n' || c == '\r'

/-- Python `s.strip()`: drop leading and trailing whitespace. -/
def pyStrip (s : List Char) : List Char :=
  ((s.dropWhile pyIsSpace).reverse.dropWhile pyIsSpace).reverse

/-- Helper for Python `s.split()`: accumulate the current word (reversed) and
emit maximal non-whitespace runs. -/
def wordsAux : List Char → List Char → List (List Char)
  | [], acc => if acc.isEmpty then [] else [acc.reverse]
  | c :: cs, acc =>
    if pyIsSpace c then
      if acc.isEmpty then wordsAux cs [] else acc.reverse :: wordsAux cs []
    else wordsAux cs (c :: acc)

/-- Python `s.split()` with no separator argument: maximal non-whitespace
runs, empty pieces discarded. -/
def pySplit (s : List Char) : List (List Char) := wordsAux s []

/-- Python `' '.join(ws)`. -/
def joinSp : List (List Char) → List Char
  | [] => []
  | [w] => w
  | w :: ws => w ++ ' ' :: joinSp ws

/-- Helper for splitting a string at every occurrence of a separator
character (used to model the field structure of `strptime` format strings). -/
def splitOnCharAux (sep : Char) : List Char → List Char → List (List Char)
  | [], acc => [acc.reverse]
  | c :: cs, acc =>
    if c == sep then acc.reverse :: splitOnCharAux sep cs []
    else splitOnCharAux sep cs (c :: acc)

/-- Split a string at every occurrence of `sep`; the separators are dropped
and empty pieces are kept. -/
def splitOnChar (sep : Char) (s : List Char) : List (List Char) :=
  splitOnCharAux sep s []

/-- ASCII lower-casing, as applied by SQLite's `LIKE` operator (SQLite's
default `LIKE` is case-insensitive for ASCII only). -/
def asciiLower (c : Char) : Char :=
  if 65 ≤ c.toNat ∧ c.toNat ≤ 90 then Char.ofNat (c.toNat + 32) else c

/-- Code-point lexicographic order on strings: SQLite BINARY collation
restricted to the ASCII data this program stores. -/
def lexLe : List Char → List Char → Bool
  | [], _ => true
  | _ :: _, [] => false
  | a :: as, b :: bs =>
    if a.toNat < b.toNat then true
    else if b.toNat < a.toNat then false
    else lexLe as bs

/-- SQLite `LIKE` pattern matching with the `%` and `_` wildcards,
case-insensitive on ASCII letters. -/
def likeMatch : List Char → List Char → Bool
  | [], s => s.isEmpty
  | '%' :: ps, [] => likeMatch ps []
  | '%' :: ps, c :: s => likeMatch ps (c :: s) || likeMatch ('%' :: ps) s
  | '_' :: _, [] => false
  | '_' :: ps, _ :: s => likeMatch ps s
  | _ :: _, [] => false
  | p :: ps, c :: s => (asciiLower p == asciiLower c) && likeMatch ps s
termination_by p s => (p.length, s.length)

/-- First occurrences of each distinct element, in order of first appearance
(the key order SQL `GROUP BY` produces before any `ORDER BY`). -/
def distinctAux {α : Type} [BEq α] (seen : List α) : List α → List α
  | [] => []
  | a :: l =>
    if seen.contains a then distinctAux seen l else a :: distinctAux (a :: seen) l

/-- SQL `GROUP BY` on a list of keys: each distinct key paired with its
multiplicity. -/
def groupCounts {α : Type} [BEq α] (l : List α) : List (α × Nat) :=
  (distinctAux [] l).map (fun k => (k, l.count k))

/-- Stable insertion of `a` into `l`: `a` goes in front of the first element
it may precede. -/
def insortBy {α : Type} (le : α → α → Bool) (a : α) : List α → List α
  | [] => [a]
  | b :: l => if le a b then a :: b :: l else b :: insortBy le a l

/-- Stable sort by the comparator `le` (insertion sort). SQLite's `ORDER BY`
guarantees only the comparator, leaving the order of fully-tied rows
unspecified; the model realises it with this stable sort. -/
def sortBy {α : Type} (le : α → α → Bool) : List α → List α
  | [] => []
  | a :: l => insortBy le a (sortBy le l)

/-- ASCII digit test (`0`-`9`), written on code points. -/
def isDigitChar (c : Char) : Bool :=
  decide (48 ≤ c.toNat) && decide (c.toNat ≤ 57)

/-- Numeric value of an ASCII digit character. -/
def digitVal (c : Char) : Nat := c.toNat - 48

/-- Numeric value of a string of ASCII digits. -/
def digitsToNat (l : List Char) : Nat :=
  l.foldl (fun n c => 10 * n + digitVal c) 0

/-! ### security.py -/

/-- Character denylist of `sanitize_input`'s regex `[<>"\'\&\;]`
(`security.py` line 43): the characters `<ANGLE>`, `>`, double quote,
single quote (code point 39), `&`, `;`. -/
def isDangerousChar (c : Char) : Bool :=
  c == '<' || c == '>' || c == '"' || c.toNat == 39 || c == '&' || c == ';'

/-- `sanitize_input(input_str, max_length)` (`security.py` lines 35-51; the
source default for `max_length` is 200). Order of operations in the source:
empty short-circuit, remove denylisted characters, truncate to `max_length`,
collapse whitespace via `' '.join(sanitized.split())`, final `.strip()`. -/
def sanitize_input (input_str : List Char) (max_length : Nat) : List Char :=
  if input_str.isEmpty then []
  else
    let s1 := input_str.filter (fun c => !(isDangerousChar c))
    let s2 := s1.take max_length
    let s3 := joinSp (pySplit s2)
    pyStrip s3

/-- Modelled from the spec wording for C3 (the claimed order of operations):
remove denylisted characters, collapse whitespace runs, trim, and only then
truncate to `max_length`. Used solely to compare the claimed operation order
against the source's actual order in `sanitize_input`. -/
def sanitize_text_spec (s : List Char) (max_length : Nat) : List Char :=
  (pyStrip (joinSp (pySplit (s.filter (fun c => !(isDangerousChar c)))))).take max_length

/-- CPython `_strptime` day field `%d`, regex `3[01]|[12]\d|0[1-9]|[1-9]`,
transcribed on digit values: `31|30`, `1x|2x`, `01`-`09`, `1`-`9`. -/
def matchDay : List Char → Bool
  | [c1, c2] =>
    (isDigitChar c1 && isDigitChar c2) &&
      ((digitVal c1 == 3 && digitVal c2 ≤ 1) ||
       (digitVal c1 == 1 || digitVal c1 == 2) ||
       (digitVal c1 == 0 && 1 ≤ digitVal c2))
  | [c] => isDigitChar c && 1 ≤ digitVal c
  | _ => false

/-- CPython `_strptime` month field `%m`, regex `1[0-2]|0[1-9]|[1-9]`. -/
def matchMonth : List Char → Bool
  | [c1, c2] =>
    (isDigitChar c1 && isDigitChar c2) &&
      ((digitVal c1 == 1 && digitVal c2 ≤ 2) ||
       (digitVal c1 == 0 && 1 ≤ digitVal c2))
  | [c] => isDigitChar c && 1 ≤ digitVal c
  | _ => false

/-- CPython `_strptime` year field `%Y`, regex `\d\d\d\d`: exactly four
digits. -/
def matchYear4 (l : List Char) : Bool :=
  l.length == 4 && l.all isDigitChar

/-- CPython `_strptime` hour field `%H`, regex `2[0-3]|[0-1]\d|\d`. -/
def matchHour : List Char → Bool
  | [c1, c2] =>
    (isDigitChar c1 && isDigitChar c2) &&
      ((digitVal c1 == 2 && digitVal c2 ≤ 3) || digitVal c1 ≤ 1)
  | [c] => isDigitChar c
  | _ => false

/-- CPython `_strptime` minute field `%M`, regex `[0-5]\d|\d`. -/
def matchMinute : List Char → Bool
  | [c1, c2] => (isDigitChar c1 && isDigitChar c2) && digitVal c1 ≤ 5
  | [c] => isDigitChar c
  | _ => false

/-- Gregorian leap-year rule, as in Python's `datetime`. -/
def isLeapYear (y : Nat) : Bool :=
  (y % 4 == 0 && y % 100 != 0) || y % 400 == 0

/-- Days in a month, as enforced by `datetime`'s constructor. -/
def daysInMonth (y m : Nat) : Nat :=
  if m == 2 then (if isLeapYear y then 29 else 28)
  else if m == 4 || m == 6 || m == 9 || m == 11 then 30
  else 31

/-- `validate_date_input(date_str)` (`security.py` lines 92-100):
`datetime.strptime(date_str, "%d/%m/%Y")` succeeds iff the string is exactly
`<day>/<month>/<year>` with the field regexes above, the year is at least 1
(`datetime.MINYEAR`), and the day exists in the given month. -/
def validate_date_input (date_str : List Char) : Bool :=
  match splitOnChar '/' date_str with
  | [d, m, y] =>
    matchDay d && matchMonth m && matchYear4 y &&
      decide (1 ≤ digitsToNat y) &&
      decide (digitsToNat d ≤ daysInMonth (digitsToNat y) (digitsToNat m))
  | _ => false

/-- `validate_time_input(time_str)` (`security.py` lines 102-110):
`datetime.strptime(time_str, "%H:%M")` succeeds iff the string is exactly
`<hour>:<minute>` with the field regexes above. -/
def validate_time_input (time_str : List Char) : Bool :=
  match splitOnChar ':' time_str with
  | [h, m] => matchHour h && matchMinute m
  | _ => false

/-- `_validar_formato_data` (`db.py` lines 609-615) is the same strptime
call as `validate_date_input`. -/
def validarFormatoData (data : List Char) : Bool := validate_date_input data

/-- `_validar_formato_hora` (`db.py` lines 617-623) is the same strptime
call as `validate_time_input`. -/
def validarFormatoHora (hora : List Char) : Bool := validate_time_input hora

/-- ASCII word character: `[a-zA-Z0-9_]`. -/
def isAsciiWordChar (c : Char) : Bool :=
  c.isAlpha || c.isDigit || c == '_'

/-- Python regex `\w` with Unicode semantics (`SRE_UNI_IS_WORD`: alphanumeric
or underscore). Exact on U+0000-U+00FF: on Latin-1 the alphanumerics are the
ordinal indicators U+00AA/U+00BA, superscripts U+00B2/U+00B3/U+00B9, micro
sign U+00B5, vulgar fractions U+00BC-U+00BE, and the letters
U+00C0-U+00D6, U+00D8-U+00F6, U+00F8-U+00FF. Code points above U+00FF are
approximated as word characters; every theorem below evaluates this
definition on Latin-1 inputs only, where it matches CPython exactly. -/
def pyIsWordChar (c : Char) : Bool :=
  let n := c.toNat
  if n < 128 then isAsciiWordChar c
  else if n ≤ 255 then
    n == 170 || n == 178 || n == 179 || n == 181 || n == 185 || n == 186 ||
    n == 188 || n == 189 || n == 190 ||
    (decide (192 ≤ n) && decide (n ≤ 214)) ||
    (decide (216 ≤ n) && decide (n ≤ 246)) ||
    decide (248 ≤ n)
  else true

/-- One character step of `re.sub(r'[^\w\-_\.]', '_', filename)`
(`security.py` line 117): keep word characters, `-`, `_`, `.`; replace
everything else with `_`. -/
def safeFilenameChar (c : Char) : Char :=
  if pyIsWordChar c || c == '-' || c == '_' || c == '.' then c else '_'

/-- `os.path.splitext` on a name containing no path separator: split at the
last dot, except that a name consisting only of leading dots before that dot
has no extension. -/
def splitext (s : List Char) : List Char × List Char :=
  if s.any (fun c => c == '.') then
    let tailLen := (s.reverse.takeWhile (fun c => c != '.')).length
    let i := s.length - tailLen - 1
    if (s.take i).any (fun c => c != '.') then (s.take i, s.drop i) else (s, [])
  else (s, [])

/-- `safe_filename(filename)` (`security.py` lines 112-126). The source
reads the wall clock for `timestamp = datetime.now().strftime("%Y%m%d_%H%M%S")`;
here the rendered timestamp string is an explicit argument. The source then
replaces unsafe characters, truncates to 100 characters, splits the
extension, and returns `f"<timestamp>_<name><ext>"`. -/
def safe_filename (timestamp filename : List Char) : List Char :=
  let safeName := (filename.map safeFilenameChar).take 100
  let ne := splitext safeName
  timestamp ++ '_' :: (ne.1 ++ ne.2)

/-! ### db.py: data model -/

/-- One row of the `atendimentos` table (`db.py` lines 85-99). Columns
`empresa`, `nome`, `modalidade`, `data`, `hora` are `NOT NULL`; `laudo_pdf`,
`avaliacao_pdf`, `status`, `observacoes` are nullable (with `status`
defaulting to `'Agendado'`); `data_criacao` / `data_atualizacao` default to
`CURRENT_TIMESTAMP`, modelled as `Nat` clock readings. -/
structure Atendimento where
  id : Nat
  empresa : List Char
  nome : List Char
  modalidade : List Char
  data : List Char
  hora : List Char
  laudo_pdf : Option (List Char)
  avaliacao_pdf : Option (List Char)
  status : Option (List Char)
  observacoes : Option (List Char)
  data_criacao : Nat
  data_atualizacao : Nat
  deriving DecidableEq, Repr

/-- The store: the `atendimentos` table, the `empresas` table projected to
its `UNIQUE NOT NULL` `nome` column (the only column the repository code
writes), and the `AUTOINCREMENT` counter for the next appointment id. -/
structure DBState where
  atendimentos : List Atendimento
  empresas : List (List Char)
  nextId : Nat
  deriving DecidableEq, Repr

/-- Freshly initialised store: `init_db` creates empty tables and SQLite
`AUTOINCREMENT` starts ids at 1. -/
def initialState : DBState := ⟨[], [], 1⟩

/-! ### db.py: appointment operations -/

/-- `inserir_atendimento` (`db.py` lines 199-251): validate the date format,
then the time format, returning `False` without touching the store on
failure; otherwise insert the row (with `empresa.strip()` and
`nome.strip()`, all other fields verbatim, `status` defaulting to
`'Agendado'`) and register the company name in `empresas` via
`INSERT OR IGNORE`. -/
def inserir_atendimento (now : Nat) (empresa nome modalidade data hora : List Char)
    (laudo_pdf avaliacao_pdf observacoes : Option (List Char)) (s : DBState) :
    Bool × DBState :=
  if !(validarFormatoData data) then (false, s)
  else if !(validarFormatoHora hora) then (false, s)
  else
    let row : Atendimento :=
      ⟨s.nextId, pyStrip empresa, pyStrip nome, modalidade, data, hora,
        laudo_pdf, avaliacao_pdf, some ("Agendado".toList), observacoes, now, now⟩
    let empresas' :=
      if s.empresas.contains (pyStrip empresa) then s.empresas
      else s.empresas ++ [pyStrip empresa]
    (true, ⟨s.atendimentos ++ [row], empresas', s.nextId + 1⟩)

/-- Comparator realising `ORDER BY data DESC, hora DESC` (`db.py` line 294):
`r1` sorts no later than `r2` when its `(data, hora)` pair is
lexically-greater-or-equal — SQLite compares the `TEXT` columns with the
BINARY collation, i.e. lexically, NOT by calendar value. -/
def rowOrder (r1 r2 : Atendimento) : Bool :=
  if r1.data == r2.data then lexLe r2.hora r1.hora else lexLe r2.data r1.data

/-- Column tuple produced by the `SELECT` of `listar_atendimentos`
(`db.py` lines 272-276): id, empresa, nome, modalidade, data, hora,
laudo_pdf, avaliacao_pdf, status, observacoes. -/
def selectTuple (r : Atendimento) :
    Nat × List Char × List Char × List Char × List Char × List Char ×
      Option (List Char) × Option (List Char) × Option (List Char) ×
      Option (List Char) :=
  (r.id, r.empresa, r.nome, r.modalidade, r.data, r.hora,
    r.laudo_pdf, r.avaliacao_pdf, r.status, r.observacoes)

/-- `listar_atendimentos` (`db.py` lines 253-310). Python truthiness: the
`empresa` filter applies only when non-`None` and non-empty, matched with
`LIKE '%...%'`; the `modalidade` filter is an exact `=`; the `LIMIT` clause
is emitted only when `limite` is truthy (non-`None` and non-zero) and the
`OFFSET` clause only additionally when `offset > 0`. Rows are sorted by
`ORDER BY data DESC, hora DESC` (lexical on the stored text). -/
def listar_atendimentos (limite : Option Nat) (offset : Nat)
    (empresa_filtro modalidade_filtro : Option (List Char)) (s : DBState) :
    List (Nat × List Char × List Char × List Char × List Char × List Char ×
      Option (List Char) × Option (List Char) × Option (List Char) ×
      Option (List Char)) :=
  let rows := s.atendimentos
  let rows :=
    match empresa_filtro with
    | some f =>
      if f.isEmpty then rows
      else rows.filter (fun r => likeMatch ('%' :: (f ++ ['%'])) r.empresa)
    | none => rows
  let rows :=
    match modalidade_filtro with
    | some f =>
      if f.isEmpty then rows else rows.filter (fun r => r.modalidade == f)
    | none => rows
  let rows := sortBy rowOrder rows
  let rows :=
    match limite with
    | some n =>
      if n == 0 then rows
      else (if 0 < offset then rows.drop offset else rows).take n
    | none => rows
  rows.map selectTuple

/-- The field allow-list `campos_validos` of `atualizar_atendimento`
(`db.py` lines 332-333). -/
def camposValidos : List (List Char) :=
  ["empresa".toList, "nome".toList, "modalidade".toList, "data".toList,
   "hora".toList, "laudo_pdf".toList, "avaliacao_pdf".toList,
   "status".toList, "observacoes".toList]

/-- Apply one `SET campo = ?` assignment to a row. A `None` value bound to
one of the five `NOT NULL` columns makes the `UPDATE` raise
`sqlite3.IntegrityError` (caught by the function, transaction rolled back),
modelled as `none`; nullable columns accept `None`. -/
def applyField (r : Atendimento) (campo : List Char) (valor : Option (List Char)) :
    Option Atendimento :=
  if campo = "empresa".toList then valor.map (fun v => { r with empresa := v })
  else if campo = "nome".toList then valor.map (fun v => { r with nome := v })
  else if campo = "modalidade".toList then valor.map (fun v => { r with modalidade := v })
  else if campo = "data".toList then valor.map (fun v => { r with data := v })
  else if campo = "hora".toList then valor.map (fun v => { r with hora := v })
  else if campo = "laudo_pdf".toList then some { r with laudo_pdf := valor }
  else if campo = "avaliacao_pdf".toList then some { r with avaliacao_pdf := valor }
  else if campo = "status".toList then some { r with status := valor }
  else if campo = "observacoes".toList then some { r with observacoes := valor }
  else some r

/-- Apply the allow-listed assignments of the `SET` clause left to right. -/
def applyFields (r : Atendimento) : List (List Char × Option (List Char)) → Option Atendimento
  | [] => some r
  | (k, v) :: rest =>
    match applyField r k v with
    | some r1 => applyFields r1 rest
    | none => none

/-- `atualizar_atendimento` (`db.py` lines 312-369). `campos` models the
`**campos` keyword arguments as an association list (Python guarantees the
keys are distinct). Empty `campos` returns `False`; so does a `campos` with
no allow-listed key (`if not campos_update`), and a target id matching no
row (`cursor.rowcount == 0`) — in each case before any write. On success
every matching row receives the allow-listed assignments plus
`data_atualizacao = CURRENT_TIMESTAMP`. -/
def atualizar_atendimento (now : Nat) (id_atendimento : Nat)
    (campos : List (List Char × Option (List Char))) (s : DBState) :
    Bool × DBState :=
  if campos.isEmpty then (false, s)
  else
    let updates := campos.filter (fun kv => camposValidos.contains kv.1)
    if updates.isEmpty then (false, s)
    else
      let targets := s.atendimentos.filter (fun r => r.id == id_atendimento)
      if targets.isEmpty then (false, s)
      else if targets.all (fun r => (applyFields r updates).isSome) then
        (true, ⟨s.atendimentos.map (fun r =>
          if r.id == id_atendimento then
            match applyFields r updates with
            | some r1 => { r1 with data_atualizacao := now }
            | none => r
          else r), s.empresas, s.nextId⟩)
      else (false, s)

/-- `excluir_atendimento` (`db.py` lines 371-397): hard delete by id;
`cursor.rowcount == 0` (no row with that id) yields `False` and leaves the
store untouched. -/
def excluir_atendimento (id_atendimento : Nat) (s : DBState) : Bool × DBState :=
  if s.atendimentos.any (fun r => r.id == id_atendimento) then
    (true, ⟨s.atendimentos.filter (fun r => r.id != id_atendimento),
      s.empresas, s.nextId⟩)
  else (false, s)

/-! ### db.py: statistics -/

/-- Comparator for `ORDER BY count DESC`. -/
def countDescLe {α : Type} (p q : α × Nat) : Bool := decide (q.2 ≤ p.2)

/-- Comparator for `ORDER BY mes_ano DESC` (lexical on the text key). -/
def keyDescLe (p q : List Char × Nat) : Bool := lexLe q.1 p.1

/-- The dictionary returned by `obter_estatisticas` (`db.py` lines 402-480).
The grouped distributions are association lists in the order SQLite emits
them after the query's `ORDER BY`; ties under `ORDER BY count DESC` are in
an order SQLite leaves unspecified, realised here by a stable sort over the
first-appearance group order. -/
structure Estatisticas where
  total_atendimentos : Nat
  total_empresas : Nat
  laudos_enviados : Nat
  avaliacoes_enviadas : Nat
  modalidades : List (List Char × Nat)
  status_distribuicao : List (Option (List Char) × Nat)
  atendimentos_por_mes : List (List Char × Nat)
  empresas_mais_ativas : List (List Char × Nat)
  deriving DecidableEq, Repr

/-- `obter_estatisticas` (`db.py` lines 402-480): total row count, distinct
company count, counts of non-null `laudo_pdf` / `avaliacao_pdf`, group-by
counts for modality and status ordered count-descending, appointments per
`substr(data, 4)` month key (non-empty dates, ordered key-descending, first
6), and the 5 companies with most appointments. -/
def obter_estatisticas (s : DBState) : Estatisticas :=
  let rows := s.atendimentos
  { total_atendimentos := rows.length,
    total_empresas := (distinctAux [] (rows.map (fun r => r.empresa))).length,
    laudos_enviados := (rows.filter (fun r => r.laudo_pdf.isSome)).length,
    avaliacoes_enviadas := (rows.filter (fun r => r.avaliacao_pdf.isSome)).length,
    modalidades := sortBy countDescLe (groupCounts (rows.map (fun r => r.modalidade))),
    status_distribuicao := sortBy countDescLe (groupCounts (rows.map (fun r => r.status))),
    atendimentos_por_mes :=
      (sortBy keyDescLe (groupCounts (((rows.filter (fun r => !r.data.isEmpty)).map
        (fun r => r.data.drop 3))))).take 6,
    empresas_mais_ativas :=
      (sortBy countDescLe (groupCounts (rows.map (fun r => r.empresa)))).take 5 }

/-! ### Helper lemmas on the string functions -/

theorem joinSp_cons_length (w : List Char) (ws : List (List Char)) :
    (joinSp (w :: ws)).length ≤ w.length + 1 + (joinSp ws).length := by
  cases ws with
  | nil => simp [joinSp]
  | cons x xs =>
    simp [joinSp]
    omega

theorem joinSp_wordsAux_length (l : List Char) :
    ∀ acc : List Char, (joinSp (wordsAux l acc)).length ≤ l.length + acc.length := by
  induction l with
  | nil =>
    intro acc
    cases hacc : acc.isEmpty with
    | true => simp [wordsAux, hacc, joinSp]
    | false => simp [wordsAux, hacc, joinSp]
  | cons d ds ih =>
    intro acc
    cases hsp : pyIsSpace d with
    | true =>
      cases hacc : acc.isEmpty with
      | true =>
        simp only [wordsAux, hsp, hacc, if_true]
        have := ih []
        simp at this ⊢
        omega
      | false =>
        simp only [wordsAux, hsp, hacc, if_true, Bool.false_eq_true, if_false]
        have h1 := joinSp_cons_length acc.reverse (wordsAux ds [])
        have h2 := ih []
        simp at h1 h2 ⊢
        omega
    | false =>
      simp only [wordsAux, hsp, Bool.false_eq_true, if_false]
      have := ih (d :: acc)
      simp at this ⊢
      omega

theorem mem_joinSp_cons {c : Char} {w : List Char} {ws : List (List Char)}
    (h : c ∈ joinSp (w :: ws)) : c ∈ w ∨ c = ' ' ∨ c ∈ joinSp ws := by
  cases ws with
  | nil =>
    simp only [joinSp] at h
    exact Or.inl h
  | cons x xs =>
    simp only [joinSp, List.mem_append, List.mem_cons] at h
    rcases h with h | h | h
    · exact Or.inl h
    · exact Or.inr (Or.inl h)
    · exact Or.inr (Or.inr h)

theorem mem_joinSp_wordsAux {c : Char} : ∀ (l acc : List Char),
    c ∈ joinSp (wordsAux l acc) → c = ' ' ∨ c ∈ l ∨ c ∈ acc := by
  intro l
  induction l with
  | nil =>
    intro acc h
    cases hacc : acc.isEmpty with
    | true => simp [wordsAux, hacc, joinSp] at h
    | false =>
      simp only [wordsAux, hacc, Bool.false_eq_true, if_false, joinSp,
        List.mem_reverse] at h
      exact Or.inr (Or.inr h)
  | cons d ds ih =>
    intro acc h
    cases hsp : pyIsSpace d with
    | true =>
      cases hacc : acc.isEmpty with
      | true =>
        simp only [wordsAux, hsp, hacc, if_true] at h
        rcases ih [] h with h1 | h1 | h1
        · exact Or.inl h1
        · exact Or.inr (Or.inl (List.mem_cons_of_mem _ h1))
        · simp at h1
      | false =>
        simp only [wordsAux, hsp, hacc, if_true, Bool.false_eq_true, if_false] at h
        rcases mem_joinSp_cons h with h1 | h1 | h1
        · exact Or.inr (Or.inr (List.mem_reverse.mp h1))
        · exact Or.inl h1
        · rcases ih [] h1 with h2 | h2 | h2
          · exact Or.inl h2
          · exact Or.inr (Or.inl (List.mem_cons_of_mem _ h2))
          · simp at h2
    | false =>
      simp only [wordsAux, hsp, Bool.false_eq_true, if_false] at h
      rcases ih (d :: acc) h with h1 | h1 | h1
      · exact Or.inl h1
      · exact Or.inr (Or.inl (List.mem_cons_of_mem _ h1))
      · rcases List.mem_cons.mp h1 with h2 | h2
        · exact Or.inr (Or.inl (h2 ▸ List.mem_cons_self d ds))
        · exact Or.inr (Or.inr h2)

theorem pyStrip_subset {c : Char} {s : List Char} (h : c ∈ pyStrip s) : c ∈ s := by
  unfold pyStrip at h
  rw [List.mem_reverse] at h
  have h1 := (List.dropWhile_sublist pyIsSpace).subset h
  rw [List.mem_reverse] at h1
  exact (List.dropWhile_sublist pyIsSpace).subset h1

theorem pyStrip_length_le (s : List Char) : (pyStrip s).length ≤ s.length := by
  unfold pyStrip
  rw [List.length_reverse]
  refine le_trans (List.dropWhile_sublist pyIsSpace).length_le ?_
  rw [List.length_reverse]
  exact (List.dropWhile_sublist pyIsSpace).length_le

/-! ### Helper lemmas on grouping -/

theorem mem_distinctAux {α : Type} [BEq α] [LawfulBEq α] (a : α) :
    ∀ (l seen : List α), a ∈ distinctAux seen l ↔ a ∈ l ∧ a ∉ seen := by
  intro l
  induction l with
  | nil => intro seen; simp [distinctAux]
  | cons b bs ih =>
    intro seen
    by_cases hb : b ∈ seen
    · simp only [distinctAux, if_pos (List.elem_iff.mpr hb)]
      rw [ih seen]
      constructor
      · rintro ⟨h1, h2⟩
        exact ⟨List.mem_cons_of_mem _ h1, h2⟩
      · rintro ⟨h1, h2⟩
        rcases List.mem_cons.mp h1 with rfl | h1
        · exact absurd hb h2
        · exact ⟨h1, h2⟩
    · have hb2 : ¬(seen.contains b = true) := fun h => hb (List.elem_iff.mp h)
      simp only [distinctAux, if_neg hb2, List.mem_cons]
      rw [ih (b :: seen)]
      constructor
      · rintro (rfl | ⟨h1, h2⟩)
        · exact ⟨Or.inl rfl, hb⟩
        · exact ⟨Or.inr h1, fun hc => h2 (List.mem_cons_of_mem _ hc)⟩
      · rintro ⟨h1, h2⟩
        by_cases hab : a = b
        · exact Or.inl hab
        · rcases h1 with rfl | h1
          · exact absurd rfl hab
          · refine Or.inr ⟨h1, fun hc => ?_⟩
            rcases List.mem_cons.mp hc with h3 | h3
            · exact hab h3
            · exact h2 h3

theorem mem_groupCounts {α : Type} [BEq α] [LawfulBEq α] {k : α} {n : Nat} {l : List α} :
    (k, n) ∈ groupCounts l ↔ k ∈ l ∧ n = l.count k := by
  unfold groupCounts
  rw [List.mem_map]
  constructor
  · rintro ⟨x, hx, hxe⟩
    have h1 : x = k := congrArg Prod.fst hxe
    subst h1
    have h2 : n = l.count x := (congrArg Prod.snd hxe).symm
    exact ⟨((mem_distinctAux x l []).mp hx).1, h2⟩
  · rintro ⟨hk, rfl⟩
    exact ⟨k, (mem_distinctAux k l []).mpr ⟨hk, by simp⟩, rfl⟩

theorem countDescLe_trans {α : Type} (a b c : α × Nat)
    (h1 : countDescLe a b = true) (h2 : countDescLe b c = true) :
    countDescLe a c = true := by
  simp [countDescLe] at h1 h2 ⊢
  omega

theorem countDescLe_total {α : Type} (a b : α × Nat) :
    (countDescLe a b || countDescLe b a) = true := by
  simp [countDescLe]
  omega

theorem mem_insortBy {α : Type} (le : α → α → Bool) (x a : α) :
    ∀ l : List α, x ∈ insortBy le a l ↔ x = a ∨ x ∈ l := by
  intro l
  induction l with
  | nil => simp [insortBy]
  | cons b bs ih =>
    by_cases hab : le a b = true
    · simp [insortBy, hab, List.mem_cons]
    · simp only [insortBy, if_neg hab, List.mem_cons, ih]
      tauto

theorem mem_sortBy {α : Type} (le : α → α → Bool) (x : α) :
    ∀ l : List α, x ∈ sortBy le l ↔ x ∈ l := by
  intro l
  induction l with
  | nil => simp [sortBy]
  | cons b bs ih =>
    simp only [sortBy, mem_insortBy, List.mem_cons, ih]

theorem pairwise_insortBy {α : Type} (le : α → α → Bool)
    (htr : ∀ a b c, le a b = true → le b c = true → le a c = true)
    (hto : ∀ a b, (le a b || le b a) = true) (a : α) :
    ∀ l : List α, l.Pairwise (fun x y => le x y = true) →
      (insortBy le a l).Pairwise (fun x y => le x y = true) := by
  intro l
  induction l with
  | nil =>
    intro _
    simp [insortBy]
  | cons b bs ih =>
    intro hp
    rw [List.pairwise_cons] at hp
    obtain ⟨hb, hbs⟩ := hp
    by_cases hab : le a b = true
    · rw [insortBy, if_pos hab, List.pairwise_cons]
      refine ⟨?_, ?_⟩
      · intro x hx
        rcases List.mem_cons.mp hx with hxb | hxs
        · rw [hxb]
          exact hab
        · exact htr a b x hab (hb x hxs)
      · rw [List.pairwise_cons]
        exact ⟨hb, hbs⟩
    · rw [insortBy, if_neg hab, List.pairwise_cons]
      refine ⟨?_, ih hbs⟩
      intro x hx
      rcases (mem_insortBy le x a bs).mp hx with hxa | hxs
      · have hab2 : le a b = false := by
          revert hab
          cases le a b <;> simp
        have h2 := hto a b
        rw [hab2] at h2
        simp only [Bool.false_or] at h2
        rw [hxa]
        exact h2
      · exact hb x hxs

theorem pairwise_sortBy {α : Type} (le : α → α → Bool)
    (htr : ∀ a b c, le a b = true → le b c = true → le a c = true)
    (hto : ∀ a b, (le a b || le b a) = true) :
    ∀ l : List α, (sortBy le l).Pairwise (fun x y => le x y = true) := by
  intro l
  induction l with
  | nil => simp [sortBy]
  | cons b bs ih => exact pairwise_insortBy le htr hto b _ ih

/-! ### Helper lemmas on the strptime field matchers -/

/-- Value-level reading of a strptime numeric field: a run of one or two
ASCII digits whose value lies in the given bounds. -/
def tokenOk (lo hi : Nat) (l : List Char) : Prop :=
  l.all isDigitChar = true ∧ (l.length = 1 ∨ l.length = 2) ∧
    lo ≤ digitsToNat l ∧ digitsToNat l ≤ hi

theorem matchDay_iff (l : List Char) : matchDay l = true ↔ tokenOk 1 31 l := by
  match l with
  | [] => simp [matchDay, tokenOk]
  | [c] =>
    simp [matchDay, tokenOk, digitsToNat, digitVal, isDigitChar, List.foldl]
    omega
  | [c1, c2] =>
    simp [matchDay, tokenOk, digitsToNat, digitVal, isDigitChar, List.foldl]
    omega
  | c1 :: c2 :: c3 :: rest =>
    simp only [matchDay, Bool.false_eq_true, false_iff, tokenOk, not_and]
    intro _ hlen
    simp [List.length_cons] at hlen

theorem matchMonth_iff (l : List Char) : matchMonth l = true ↔ tokenOk 1 12 l := by
  match l with
  | [] => simp [matchMonth, tokenOk]
  | [c] =>
    simp [matchMonth, tokenOk, digitsToNat, digitVal, isDigitChar, List.foldl]
    omega
  | [c1, c2] =>
    simp [matchMonth, tokenOk, digitsToNat, digitVal, isDigitChar, List.foldl]
    omega
  | c1 :: c2 :: c3 :: rest =>
    simp only [matchMonth, Bool.false_eq_true, false_iff, tokenOk, not_and]
    intro _ hlen
    simp [List.length_cons] at hlen

theorem matchHour_iff (l : List Char) : matchHour l = true ↔ tokenOk 0 23 l := by
  match l with
  | [] => simp [matchHour, tokenOk]
  | [c] =>
    simp [matchHour, tokenOk, digitsToNat, digitVal, isDigitChar, List.foldl]
    omega
  | [c1, c2] =>
    simp [matchHour, tokenOk, digitsToNat, digitVal, isDigitChar, List.foldl]
    omega
  | c1 :: c2 :: c3 :: rest =>
    simp only [matchHour, Bool.false_eq_true, false_iff, tokenOk, not_and]
    intro _ hlen
    simp [List.length_cons] at hlen

theorem matchMinute_iff (l : List Char) : matchMinute l = true ↔ tokenOk 0 59 l := by
  match l with
  | [] => simp [matchMinute, tokenOk]
  | [c] =>
    simp [matchMinute, tokenOk, digitsToNat, digitVal, isDigitChar, List.foldl]
    omega
  | [c1, c2] =>
    simp [matchMinute, tokenOk, digitsToNat, digitVal, isDigitChar, List.foldl]
    omega
  | c1 :: c2 :: c3 :: rest =>
    simp only [matchMinute, Bool.false_eq_true, false_iff, tokenOk, not_and]
    intro _ hlen
    simp [List.length_cons] at hlen

theorem matchYear4_iff (l : List Char) :
    matchYear4 l = true ↔ l.length = 4 ∧ l.all isDigitChar = true := by
  simp [matchYear4]

theorem validate_time_iff (s : List Char) :
    validate_time_input s = true ↔
      ∃ h m, splitOnChar ':' s = [h, m] ∧ tokenOk 0 23 h ∧ tokenOk 0 59 m := by
  unfold validate_time_input
  cases hsp : splitOnChar ':' s with
  | nil => simp
  | cons a t =>
    cases t with
    | nil => simp
    | cons b t2 =>
      cases t2 with
      | nil =>
        simp only [Bool.and_eq_true, matchHour_iff, matchMinute_iff]
        constructor
        · rintro ⟨h1, h2⟩
          exact ⟨a, b, rfl, h1, h2⟩
        · rintro ⟨h, m, he, h1, h2⟩
          injection he with e1 e2
          injection e2 with e3 e4
          subst e1
          subst e3
          exact ⟨h1, h2⟩
      | cons e t3 => simp

theorem validate_date_iff (s : List Char) :
    validate_date_input s = true ↔
      ∃ d m y, splitOnChar '/' s = [d, m, y] ∧ tokenOk 1 31 d ∧ tokenOk 1 12 m ∧
        y.length = 4 ∧ y.all isDigitChar = true ∧ 1 ≤ digitsToNat y ∧
        digitsToNat d ≤ daysInMonth (digitsToNat y) (digitsToNat m) := by
  unfold validate_date_input
  cases hsp : splitOnChar '/' s with
  | nil => simp
  | cons a t =>
    cases t with
    | nil => simp
    | cons b t2 =>
      cases t2 with
      | nil => simp
      | cons e t3 =>
        cases t3 with
        | nil =>
          simp only [Bool.and_eq_true, matchDay_iff, matchMonth_iff,
            matchYear4_iff, decide_eq_true_eq]
          constructor
          · rintro ⟨⟨⟨⟨h1, h2⟩, h3, h4⟩, h5⟩, h6⟩
            exact ⟨a, b, e, rfl, h1, h2, h3, h4, h5, h6⟩
          · rintro ⟨d, m, y, he, h1, h2, h3, h4, h5, h6⟩
            injection he with e1 e2
            injection e2 with e3 e4
            injection e4 with e5 e6
            subst e1
            subst e3
            subst e5
            exact ⟨⟨⟨⟨h1, h2⟩, h3, h4⟩, h5⟩, h6⟩
        | cons f t4 => simp

/-! ### Helper lemmas and definitions for the partial-update semantics -/

/-- Look up the value supplied for a field name in the keyword-argument
list; `some v` means the field was supplied with SQL value `v`. -/
def findCampo (k : List Char) : List (List Char × Option (List Char)) →
    Option (Option (List Char))
  | [] => none
  | (a, v) :: rest => if a = k then some v else findCampo k rest

/-- The five `NOT NULL` columns of `atendimentos` among the writable
fields. -/
def notNullCampos : List (List Char) :=
  ["empresa".toList, "nome".toList, "modalidade".toList, "data".toList,
   "hora".toList]

/-- Reference semantics of a partial update: each allow-listed field takes
the supplied value when present (nullable fields may take `None`) and keeps
the row's prior value when absent; `id`, `data_criacao` and
`data_atualizacao` are untouched. -/
def patchFields (campos : List (List Char × Option (List Char)))
    (r : Atendimento) : Atendimento :=
  { id := r.id,
    empresa := match findCampo ("empresa".toList) campos with
      | some (some v) => v
      | _ => r.empresa,
    nome := match findCampo ("nome".toList) campos with
      | some (some v) => v
      | _ => r.nome,
    modalidade := match findCampo ("modalidade".toList) campos with
      | some (some v) => v
      | _ => r.modalidade,
    data := match findCampo ("data".toList) campos with
      | some (some v) => v
      | _ => r.data,
    hora := match findCampo ("hora".toList) campos with
      | some (some v) => v
      | _ => r.hora,
    laudo_pdf := match findCampo ("laudo_pdf".toList) campos with
      | some v => v
      | none => r.laudo_pdf,
    avaliacao_pdf := match findCampo ("avaliacao_pdf".toList) campos with
      | some v => v
      | none => r.avaliacao_pdf,
    status := match findCampo ("status".toList) campos with
      | some v => v
      | none => r.status,
    observacoes := match findCampo ("observacoes".toList) campos with
      | some v => v
      | none => r.observacoes,
    data_criacao := r.data_criacao,
    data_atualizacao := r.data_atualizacao }

theorem findCampo_not_mem {k : List Char} {campos : List (List Char × Option (List Char))}
    (h : k ∉ campos.map Prod.fst) : findCampo k campos = none := by
  induction campos with
  | nil => rfl
  | cons kv rest ih =>
    obtain ⟨a, v⟩ := kv
    simp only [List.map_cons, List.mem_cons] at h
    push_neg at h
    obtain ⟨h1, h2⟩ := h
    have hne : ¬(a = k) := fun he => h1 he.symm
    simp only [findCampo, if_neg hne]
    exact ih h2

theorem applyFields_eq (campos : List (List Char × Option (List Char))) :
    ∀ r : Atendimento,
    (campos.map Prod.fst).Nodup →
    (∀ kv ∈ campos, kv.1 ∈ camposValidos) →
    (∀ kv ∈ campos, kv.1 ∈ notNullCampos → kv.2.isSome = true) →
    applyFields r campos = some (patchFields campos r) := by
  induction campos with
  | nil =>
    intro r _ _ _
    rfl
  | cons kv rest ih =>
    intro r hnd hval hnn
    obtain ⟨k, v⟩ := kv
    simp only [List.map_cons, List.nodup_cons] at hnd
    obtain ⟨hknr, hndr⟩ := hnd
    have hvr : ∀ kv ∈ rest, kv.1 ∈ camposValidos :=
      fun kv h => hval kv (List.mem_cons_of_mem _ h)
    have hnnr : ∀ kv ∈ rest, kv.1 ∈ notNullCampos → kv.2.isSome = true :=
      fun kv h => hnn kv (List.mem_cons_of_mem _ h)
    have hk := hval (k, v) (List.mem_cons_self _ _)
    have hnone := findCampo_not_mem hknr
    simp only [camposValidos, List.mem_cons, List.not_mem_nil, or_false] at hk
    rcases hk with rfl | rfl | rfl | rfl | rfl | rfl | rfl | rfl | rfl
    · obtain ⟨w, rfl⟩ := Option.isSome_iff_exists.mp
        (hnn _ (List.mem_cons_self _ _) (by simp [notNullCampos]))
      have ha : applyField r ("empresa".toList) (some w) = some { r with empresa := w } := by
        simp [applyField]
      simp at hnone
      have hp : patchFields (("empresa".toList, some w) :: rest) r
          = patchFields rest { r with empresa := w } := by
        simp [patchFields, findCampo, hnone]
      simp only [applyFields, ha]
      rw [ih _ hndr hvr hnnr, hp]
    · obtain ⟨w, rfl⟩ := Option.isSome_iff_exists.mp
        (hnn _ (List.mem_cons_self _ _) (by simp [notNullCampos]))
      have ha : applyField r ("nome".toList) (some w) = some { r with nome := w } := by
        simp [applyField]
      simp at hnone
      have hp : patchFields (("nome".toList, some w) :: rest) r
          = patchFields rest { r with nome := w } := by
        simp [patchFields, findCampo, hnone]
      simp only [applyFields, ha]
      rw [ih _ hndr hvr hnnr, hp]
    · obtain ⟨w, rfl⟩ := Option.isSome_iff_exists.mp
        (hnn _ (List.mem_cons_self _ _) (by simp [notNullCampos]))
      have ha : applyField r ("modalidade".toList) (some w)
          = some { r with modalidade := w } := by
        simp [applyField]
      simp at hnone
      have hp : patchFields (("modalidade".toList, some w) :: rest) r
          = patchFields rest { r with modalidade := w } := by
        simp [patchFields, findCampo, hnone]
      simp only [applyFields, ha]
      rw [ih _ hndr hvr hnnr, hp]
    · obtain ⟨w, rfl⟩ := Option.isSome_iff_exists.mp
        (hnn _ (List.mem_cons_self _ _) (by simp [notNullCampos]))
      have ha : applyField r ("data".toList) (some w) = some { r with data := w } := by
        simp [applyField]
      simp at hnone
      have hp : patchFields (("data".toList, some w) :: rest) r
          = patchFields rest { r with data := w } := by
        simp [patchFields, findCampo, hnone]
      simp only [applyFields, ha]
      rw [ih _ hndr hvr hnnr, hp]
    · obtain ⟨w, rfl⟩ := Option.isSome_iff_exists.mp
        (hnn _ (List.mem_cons_self _ _) (by simp [notNullCampos]))
      have ha : applyField r ("hora".toList) (some w) = some { r with hora := w } := by
        simp [applyField]
      simp at hnone
      have hp : patchFields (("hora".toList, some w) :: rest) r
          = patchFields rest { r with hora := w } := by
        simp [patchFields, findCampo, hnone]
      simp only [applyFields, ha]
      rw [ih _ hndr hvr hnnr, hp]
    · have ha : applyField r ("laudo_pdf".toList) v = some { r with laudo_pdf := v } := by
        simp [applyField]
      simp at hnone
      have hp : patchFields (("laudo_pdf".toList, v) :: rest) r
          = patchFields rest { r with laudo_pdf := v } := by
        simp [patchFields, findCampo, hnone]
      simp only [applyFields, ha]
      rw [ih _ hndr hvr hnnr, hp]
    · have ha : applyField r ("avaliacao_pdf".toList) v
          = some { r with avaliacao_pdf := v } := by
        simp [applyField]
      simp at hnone
      have hp : patchFields (("avaliacao_pdf".toList, v) :: rest) r
          = patchFields rest { r with avaliacao_pdf := v } := by
        simp [patchFields, findCampo, hnone]
      simp only [applyFields, ha]
      rw [ih _ hndr hvr hnnr, hp]
    · have ha : applyField r ("status".toList) v = some { r with status := v } := by
        simp [applyField]
      simp at hnone
      have hp : patchFields (("status".toList, v) :: rest) r
          = patchFields rest { r with status := v } := by
        simp [patchFields, findCampo, hnone]
      simp only [applyFields, ha]
      rw [ih _ hndr hvr hnnr, hp]
    · have ha : applyField r ("observacoes".toList) v
          = some { r with observacoes := v } := by
        simp [applyField]
      simp at hnone
      have hp : patchFields (("observacoes".toList, v) :: rest) r
          = patchFields rest { r with observacoes := v } := by
        simp [patchFields, findCampo, hnone]
      simp only [applyFields, ha]
      rw [ih _ hndr hvr hnnr, hp]

theorem findCampo_filter (k : List Char) (p : List Char × Option (List Char) → Bool)
    (hp : ∀ v, p (k, v) = true) :
    ∀ campos, findCampo k (campos.filter p) = findCampo k campos := by
  intro campos
  induction campos with
  | nil => rfl
  | cons kv rest ih =>
    obtain ⟨a, w⟩ := kv
    by_cases hpa : p (a, w) = true
    · rw [List.filter_cons_of_pos hpa]
      simp only [findCampo]
      by_cases hak : a = k
      · rw [if_pos hak, if_pos hak]
      · rw [if_neg hak, if_neg hak, ih]
    · rw [List.filter_cons_of_neg hpa]
      have hak : ¬(a = k) := fun he => hpa (he ▸ hp w)
      simp only [findCampo, if_neg hak]
      exact ih

theorem patchFields_filter (campos : List (List Char × Option (List Char)))
    (r : Atendimento) :
    patchFields (campos.filter (fun kv => camposValidos.contains kv.1)) r =
      patchFields campos r := by
  unfold patchFields
  rw [findCampo_filter _ _ (fun v => rfl), findCampo_filter _ _ (fun v => rfl),
    findCampo_filter _ _ (fun v => rfl), findCampo_filter _ _ (fun v => rfl),
    findCampo_filter _ _ (fun v => rfl), findCampo_filter _ _ (fun v => rfl),
    findCampo_filter _ _ (fun v => rfl), findCampo_filter _ _ (fun v => rfl),
    findCampo_filter _ _ (fun v => rfl)]

theorem atualizar_frame_core (now idA : Nat)
    (campos : List (List Char × Option (List Char))) (s : DBState)
    (hnd : (campos.map Prod.fst).Nodup)
    (hnn : ∀ kv ∈ campos, kv.1 ∈ notNullCampos → kv.2.isSome = true)
    (hsome : ∃ kv ∈ campos, kv.1 ∈ camposValidos)
    (hex : ∃ r ∈ s.atendimentos, r.id = idA) :
    atualizar_atendimento now idA campos s =
      (true, ⟨s.atendimentos.map (fun r =>
        if r.id = idA then { patchFields campos r with data_atualizacao := now }
        else r), s.empresas, s.nextId⟩) := by
  obtain ⟨kv0, hkv0, hkv0v⟩ := hsome
  obtain ⟨r0, hr0, hr0id⟩ := hex
  have hcne : campos.isEmpty = false := by
    rw [List.isEmpty_eq_false]
    intro he
    rw [he] at hkv0
    exact List.not_mem_nil kv0 hkv0
  have hkv0mem : kv0 ∈ campos.filter (fun kv => camposValidos.contains kv.1) :=
    List.mem_filter.mpr ⟨hkv0, by rw [List.elem_iff]; exact hkv0v⟩
  have hueq : (campos.filter (fun kv => camposValidos.contains kv.1)).isEmpty = false := by
    rw [List.isEmpty_eq_false]
    intro he
    rw [he] at hkv0mem
    exact List.not_mem_nil kv0 hkv0mem
  have hr0mem : r0 ∈ s.atendimentos.filter (fun r => r.id == idA) :=
    List.mem_filter.mpr ⟨hr0, by rw [beq_iff_eq]; exact hr0id⟩
  have htg : (s.atendimentos.filter (fun r => r.id == idA)).isEmpty = false := by
    rw [List.isEmpty_eq_false]
    intro he
    rw [he] at hr0mem
    exact List.not_mem_nil r0 hr0mem
  have hupdnd : ((campos.filter (fun kv => camposValidos.contains kv.1)).map Prod.fst).Nodup :=
    hnd.sublist ((List.filter_sublist campos).map Prod.fst)
  have hupdval : ∀ kv ∈ campos.filter (fun kv => camposValidos.contains kv.1),
      kv.1 ∈ camposValidos := by
    intro kv h
    have := List.of_mem_filter h
    rwa [List.elem_iff] at this
  have hupdnn : ∀ kv ∈ campos.filter (fun kv => camposValidos.contains kv.1),
      kv.1 ∈ notNullCampos → kv.2.isSome = true :=
    fun kv h => hnn kv (List.mem_of_mem_filter h)
  have happ : ∀ r : Atendimento,
      applyFields r (campos.filter (fun kv => camposValidos.contains kv.1)) =
        some (patchFields campos r) := by
    intro r
    rw [applyFields_eq _ r hupdnd hupdval hupdnn, patchFields_filter]
  have hall : (s.atendimentos.filter (fun r => r.id == idA)).all
      (fun r => (applyFields r (campos.filter (fun kv => camposValidos.contains kv.1))).isSome) =
        true := by
    rw [List.all_eq_true]
    intro r _
    rw [happ r]
    rfl
  unfold atualizar_atendimento
  simp only [hcne, hueq, htg, hall, Bool.false_eq_true, if_false, if_true]
  refine congrArg (fun l => ((true : Bool), DBState.mk l s.empresas s.nextId)) ?_
  refine List.map_congr_left ?_
  intro r _
  by_cases hid : r.id = idA
  · rw [if_pos (by rw [beq_iff_eq]; exact hid), if_pos hid, happ r]
  · rw [if_neg (by rw [beq_iff_eq]; exact hid), if_neg hid]

/-! ### Helper lemmas for safe_filename -/

/-- The character set `[A-Za-z0-9._-]` named by the specification for
`safe_filename` outputs. -/
def isSafeAsciiChar (c : Char) : Bool :=
  c.isAlpha || c.isDigit || c == '.' || c == '_' || c == '-'

theorem splitext_append (s : List Char) : (splitext s).1 ++ (splitext s).2 = s := by
  unfold splitext
  split
  · dsimp only
    split
    · exact List.take_append_drop _ s
    · simp
  · simp

theorem safe_filename_eq (ts name : List Char) :
    safe_filename ts name = ts ++ '_' :: (name.map safeFilenameChar).take 100 := by
  simp only [safe_filename]
  rw [splitext_append]

theorem safeFilenameChar_ascii_safe {c : Char} (h : c.toNat < 128) :
    isSafeAsciiChar (safeFilenameChar c) = true := by
  unfold safeFilenameChar
  by_cases hk : (pyIsWordChar c || c == '-' || c == '_' || c == '.') = true
  · rw [if_pos hk]
    simp only [Bool.or_eq_true, beq_iff_eq] at hk
    rcases hk with ((hw | rfl) | rfl) | rfl
    · have hw2 : isAsciiWordChar c = true := by
        unfold pyIsWordChar at hw
        simpa [h] using hw
      simp only [isAsciiWordChar, Bool.or_eq_true, beq_iff_eq] at hw2
      rcases hw2 with (ha | hdg) | rfl
      · simp [isSafeAsciiChar, ha]
      · simp [isSafeAsciiChar, hdg]
      · decide
    · decide
    · decide
    · decide
  · rw [if_neg hk]
    decide

/-! ### Concrete scenario states -/

/-- Store built by three valid inserts whose dates are `05/01/2025`,
`20/12/2024`, `05/01/2024` — the ordering scenario of the specification. -/
def c1State : DBState :=
  (inserir_atendimento 3 ("Clinica Sul".toList) ("Caio".toList)
    ("Admissional".toList) ("05/01/2024".toList) ("11:00".toList) none none none
    (inserir_atendimento 2 ("Clinica Sul".toList) ("Bia".toList)
      ("Periódico".toList) ("20/12/2024".toList) ("10:00".toList) none none none
      (inserir_atendimento 1 ("Acme".toList) ("Ana".toList)
        ("Admissional".toList) ("05/01/2025".toList) ("09:00".toList) none none none
        initialState).2).2).2

/-- Store with 3 appointments for 2 distinct companies, exactly one with a
report reference — the statistics scenario of the specification. -/
def c8State : DBState :=
  (inserir_atendimento 3 ("Beta".toList) ("Caio".toList) ("Admissional".toList)
    ("05/01/2024".toList) ("11:00".toList) (some ("laudo.pdf".toList)) none none
    (inserir_atendimento 2 ("Acme".toList) ("Bia".toList) ("Periódico".toList)
      ("20/12/2024".toList) ("10:00".toList) none none none
      (inserir_atendimento 1 ("Acme".toList) ("Ana".toList) ("Admissional".toList)
        ("05/01/2025".toList) ("09:00".toList) none none none
        initialState).2).2).2

/-- A single stored appointment row used by the update scenarios. -/
def c6Row : Atendimento :=
  ⟨1, "Acme".toList, "Ana".toList, "Admissional".toList, "05/01/2025".toList,
    "09:00".toList, none, none, some ("Agendado".toList), none, 1, 1⟩

/-- Store holding exactly `c6Row`. -/
def c6State : DBState := ⟨[c6Row], ["Acme".toList], 2⟩

/-- A patch supplying one allow-listed field (`status`) and one unknown
field name (`foo`). -/
def c6Patch : List (List Char × Option (List Char)) :=
  [("status".toList, some ("Concluído".toList)), ("foo".toList, some ("x".toList))]

/-! ### Claim theorems -/

/-- C1. The claim says `listar_atendimentos` returns rows descending by
calendar date (so dates 05/01/2025, 20/12/2024, 05/01/2024 in exactly that
order). The code orders by `ORDER BY data DESC` on the `DD/MM/YYYY` text,
which is lexical: on the claim's own scenario the rows come back as
20/12/2024, 05/01/2025, 05/01/2024 — newest date NOT first, contradicting
the code's own comment (`mais recentes primeiro`) and the spec's ordering
contract. -/
theorem listar_lexical_not_calendar :
    ((listar_atendimentos none 0 none none c1State).map
      (fun t => t.2.2.2.2.1)) =
        ["20/12/2024".toList, "05/01/2025".toList, "05/01/2024".toList] ∧
    ((listar_atendimentos none 0 none none c1State).map
      (fun t => t.2.2.2.2.1)) ≠
        ["05/01/2025".toList, "20/12/2024".toList, "05/01/2024".toList] := by
  decide

/-- C2 (counterexample). The claim says `validate_time("9:5")` is false
because it is not zero-padded; CPython's `strptime` accepts non-zero-padded
`%H`/`%M`/`%d`/`%m` fields, so the code returns true on `"9:5"` (and on
`"5/1/2024"`). -/
theorem validate_time_unpadded_accepted :
    validate_time_input ("9:5".toList) = true ∧
    validate_date_input ("5/1/2024".toList) = true := by
  decide

/-- C2 (amended). `validate_date` accepts exactly `d/m/yyyy` with the day
and month written in one or two digits (zero-padding optional), a four-digit
year at least 0001, and a calendar-valid day for that month; `validate_time`
accepts exactly `h:m` with hour 0-23 and minute 0-59, each in one or two
digits. The claim's strictly-zero-padded examples behave as claimed except
`"9:5"`, which the code accepts. -/
theorem validators_strptime_characterization :
    (∀ s, validate_date_input s = true ↔
      ∃ d m y, splitOnChar '/' s = [d, m, y] ∧ tokenOk 1 31 d ∧ tokenOk 1 12 m ∧
        y.length = 4 ∧ y.all isDigitChar = true ∧ 1 ≤ digitsToNat y ∧
        digitsToNat d ≤ daysInMonth (digitsToNat y) (digitsToNat m)) ∧
    (∀ s, validate_time_input s = true ↔
      ∃ h m, splitOnChar ':' s = [h, m] ∧ tokenOk 0 23 h ∧ tokenOk 0 59 m) ∧
    validate_date_input ("29/02/2024".toList) = true ∧
    validate_date_input ("31/04/2024".toList) = false ∧
    validate_date_input ("29/02/2023".toList) = false ∧
    validate_time_input ("23:59".toList) = true ∧
    validate_time_input ("24:00".toList) = false ∧
    validate_time_input ("9:5".toList) = true := by
  exact ⟨validate_date_iff, validate_time_iff, by decide, by decide, by decide,
    by decide, by decide, by decide⟩

/-- C3 (counterexample). The claim fixes the order: remove, collapse, trim,
THEN truncate. The code truncates before collapsing, and the two orders
disagree: on input `"a  b"` with `max_length = 3` the code yields `"a"`
while the claimed order yields `"a b"`. -/
theorem sanitize_order_differs :
    sanitize_input ("a  b".toList) 3 = "a".toList ∧
    sanitize_text_spec ("a  b".toList) 3 = "a b".toList ∧
    sanitize_input ("a  b".toList) 3 ≠ sanitize_text_spec ("a  b".toList) 3 := by
  decide

/-- C3 (amended). `sanitize_input` removes the denylisted characters, then
truncates to `max_length`, then collapses whitespace runs and trims; the
claim's two consequences still hold for every input: no denylisted character
appears in the output and the output never exceeds `max_length`
characters. -/
theorem sanitize_input_denylist_and_length (s : List Char) (ml : Nat) :
    (sanitize_input s ml).all (fun c => !(isDangerousChar c)) = true ∧
    (sanitize_input s ml).length ≤ ml := by
  by_cases he : s.isEmpty = true
  · simp only [sanitize_input, he, if_true]
    exact ⟨rfl, Nat.zero_le ml⟩
  · simp only [sanitize_input, he, Bool.false_eq_true, if_false]
    constructor
    · rw [List.all_eq_true]
      intro c hc
      have hc2 := pyStrip_subset hc
      rcases mem_joinSp_wordsAux _ [] hc2 with h1 | h1 | h1
      · subst h1
        decide
      · have h2 := List.take_subset ml _ h1
        have h3 := @List.of_mem_filter Char (fun x => !(isDangerousChar x)) c s h2
        simpa using h3
      · simp at h1
    · refine le_trans (pyStrip_length_le _) ?_
      refine le_trans (joinSp_wordsAux_length _ []) ?_
      simp only [List.length_nil, Nat.add_zero]
      exact List.length_take_le ml _

/-- C4 (counterexample). The claim says every mutating repository operation
sanitizes free text so no stored field contains a denylisted character. The
repository never calls `sanitize_input`: inserting a company name
`<Empresa>` succeeds and the stored company field still contains `<`. -/
theorem inserir_stores_unsanitized :
    (inserir_atendimento 1 ("<Empresa>".toList) ("Bob".toList)
      ("Admissional".toList) ("05/01/2025".toList) ("09:00".toList)
      none none none initialState).1 = true ∧
    ((inserir_atendimento 1 ("<Empresa>".toList) ("Bob".toList)
      ("Admissional".toList) ("05/01/2025".toList) ("09:00".toList)
      none none none initialState).2.atendimentos.any
        (fun r => r.empresa.contains '<')) = true := by
  decide

/-- C4 (amended). On a valid date and time, `inserir_atendimento` stores
`empresa` and `nome` with only `.strip()` applied and every other field
verbatim — no sanitization of any free-text field — and registers the
stripped company name. -/
theorem inserir_fields_stored_verbatim (now : Nat) (e nm md d h : List Char)
    (lp ap ob : Option (List Char)) (s : DBState)
    (hd : validarFormatoData d = true) (hh : validarFormatoHora h = true) :
    inserir_atendimento now e nm md d h lp ap ob s =
      (true, ⟨s.atendimentos ++
        [⟨s.nextId, pyStrip e, pyStrip nm, md, d, h, lp, ap,
          some ("Agendado".toList), ob, now, now⟩],
        if s.empresas.contains (pyStrip e) then s.empresas
        else s.empresas ++ [pyStrip e],
        s.nextId + 1⟩) := by
  simp only [inserir_atendimento, hd, hh, Bool.not_true, Bool.false_eq_true, if_false]

/-- C4 witness: the amended theorem applied at a concrete insert. -/
theorem inserir_fields_stored_verbatim_witness :
    validarFormatoData ("05/01/2025".toList) = true ∧
    inserir_atendimento 7 (" Acme ".toList) ("Ana".toList) ("Admissional".toList)
      ("05/01/2025".toList) ("09:00".toList) none none none initialState =
      (true, ⟨initialState.atendimentos ++
        [⟨initialState.nextId, pyStrip (" Acme ".toList), pyStrip ("Ana".toList),
          "Admissional".toList, "05/01/2025".toList, "09:00".toList, none, none,
          some ("Agendado".toList), none, 7, 7⟩],
        if initialState.empresas.contains (pyStrip (" Acme ".toList)) then
          initialState.empresas
        else initialState.empresas ++ [pyStrip (" Acme ".toList)],
        initialState.nextId + 1⟩) :=
  ⟨by decide,
    inserir_fields_stored_verbatim 7 (" Acme ".toList) ("Ana".toList)
      ("Admissional".toList) ("05/01/2025".toList) ("09:00".toList)
      none none none initialState (by decide) (by decide)⟩

/-- C5. When the date or the time fails format validation,
`inserir_atendimento` returns `False` (no exception in the model — the
function is total) and the store is completely untouched: no appointment row
and no company row is added. -/
theorem inserir_invalid_format_no_write (now : Nat) (e nm md d h : List Char)
    (lp ap ob : Option (List Char)) (s : DBState)
    (hbad : validarFormatoData d = false ∨ validarFormatoHora h = false) :
    inserir_atendimento now e nm md d h lp ap ob s = (false, s) := by
  unfold inserir_atendimento
  rcases hbad with hb | hb
  · simp [hb]
  · cases hdv : validarFormatoData d <;> simp [hb, hdv]

/-- C5 witness: a rejected ISO-format date leaves the store unchanged. -/
theorem inserir_invalid_format_no_write_witness :
    validarFormatoData ("2025-01-05".toList) = false ∧
    inserir_atendimento 7 ("Acme".toList) ("Ana".toList) ("Admissional".toList)
      ("2025-01-05".toList) ("09:00".toList) none none none c6State =
      (false, c6State) :=
  ⟨by decide,
    inserir_invalid_format_no_write 7 ("Acme".toList) ("Ana".toList)
      ("Admissional".toList) ("2025-01-05".toList) ("09:00".toList)
      none none none c6State (Or.inl (by decide))⟩

/-- C6 (counterexample). The claim says unknown field names are silently
ignored (not an error) and `updated_at` is always refreshed for an existing
id. A patch whose only field name is unknown (`foo`) on the existing row id
1 returns `False` and leaves the row's `data_atualizacao` at its prior
value 1 even though the call's clock is 99. -/
theorem atualizar_unknown_only_counterexample :
    atualizar_atendimento 99 1 [("foo".toList, some ("x".toList))] c6State =
      (false, c6State) ∧
    ((atualizar_atendimento 99 1 [("foo".toList, some ("x".toList))]
      c6State).2.atendimentos.map (fun r => r.data_atualizacao)) = [1] := by
  decide

/-- C6 (amended). For a patch with distinct keys containing at least one
allow-listed field (and no SQL `NULL` for a `NOT NULL` column), an update of
an existing id succeeds and rewrites exactly the matching rows: each
supplied allow-listed field takes its supplied value, absent fields keep
their prior values, unknown field names are ignored, `data_atualizacao`
becomes the call's clock, and every other row, the company table and the id
counter are unchanged (a patch with no allow-listed field instead fails —
see the counterexample). -/
theorem atualizar_partial_update_frame (now idA : Nat)
    (campos : List (List Char × Option (List Char))) (s : DBState)
    (hnd : (campos.map Prod.fst).Nodup)
    (hnn : ∀ kv ∈ campos, kv.1 ∈ notNullCampos → kv.2.isSome = true)
    (hsome : ∃ kv ∈ campos, kv.1 ∈ camposValidos)
    (hex : ∃ r ∈ s.atendimentos, r.id = idA) :
    atualizar_atendimento now idA campos s =
      (true, ⟨s.atendimentos.map (fun r =>
        if r.id = idA then { patchFields campos r with data_atualizacao := now }
        else r), s.empresas, s.nextId⟩) :=
  atualizar_frame_core now idA campos s hnd hnn hsome hex

/-- C6 witness: updating only `status` (with an extra unknown key `foo`)
on the stored row id 1. -/
theorem atualizar_partial_update_frame_witness :
    (c6Patch.map Prod.fst).Nodup ∧
    (∃ r ∈ c6State.atendimentos, r.id = 1) ∧
    atualizar_atendimento 99 1 c6Patch c6State =
      (true, ⟨c6State.atendimentos.map (fun r =>
        if r.id = 1 then { patchFields c6Patch r with data_atualizacao := 99 }
        else r), c6State.empresas, c6State.nextId⟩) :=
  ⟨by decide, by decide,
    atualizar_partial_update_frame 99 1 c6Patch c6State (by decide) (by decide)
      (by decide) (by decide)⟩

/-- C7. When no stored row has the target id, `atualizar_atendimento` and
`excluir_atendimento` both return `False` (a plain boolean, no exception in
the model) and leave the store exactly as it was. -/
theorem atualizar_excluir_not_found_noop (now idA : Nat)
    (campos : List (List Char × Option (List Char))) (s : DBState)
    (habs : ∀ r ∈ s.atendimentos, r.id ≠ idA) :
    atualizar_atendimento now idA campos s = (false, s) ∧
    excluir_atendimento idA s = (false, s) := by
  have hfl : s.atendimentos.filter (fun r => r.id == idA) = [] :=
    List.filter_eq_nil_iff.mpr (fun r hr h => habs r hr (by rwa [beq_iff_eq] at h))
  constructor
  · unfold atualizar_atendimento
    simp only [hfl]
    by_cases hc : campos.isEmpty = true
    · simp [hc]
    · by_cases hu : (campos.filter (fun kv => camposValidos.contains kv.1)).isEmpty = true
      · simp [hc, hu]
      · simp [hc, hu]
  · have hany : s.atendimentos.any (fun r => r.id == idA) = false :=
      List.any_eq_false.mpr (fun r hr h => habs r hr (by rwa [beq_iff_eq] at h))
    unfold excluir_atendimento
    simp [hany]

/-- C7 witness: id 42 is absent from the one-row store. -/
theorem atualizar_excluir_not_found_noop_witness :
    (∀ r ∈ c6State.atendimentos, r.id ≠ 42) ∧
    atualizar_atendimento 99 42 c6Patch c6State = (false, c6State) ∧
    excluir_atendimento 42 c6State = (false, c6State) := by
  refine ⟨by decide, ?_⟩
  exact atualizar_excluir_not_found_noop 99 42 c6Patch c6State (by decide)

/-- C8. On the spec's scenario (3 appointments, 2 distinct companies,
exactly one report reference) the statistics snapshot returns `total=3`,
`companies=2`, `reports=1` (and 0 evaluation references); and for every
store the modality and status distributions list each occurring key exactly
with its row count, ordered count-descending. -/
theorem obter_estatisticas_spec :
    (obter_estatisticas c8State).total_atendimentos = 3 ∧
    (obter_estatisticas c8State).total_empresas = 2 ∧
    (obter_estatisticas c8State).laudos_enviados = 1 ∧
    (obter_estatisticas c8State).avaliacoes_enviadas = 0 ∧
    (∀ s : DBState,
      (obter_estatisticas s).modalidades.Pairwise (fun p q => q.2 ≤ p.2) ∧
      (obter_estatisticas s).status_distribuicao.Pairwise (fun p q => q.2 ≤ p.2) ∧
      (∀ k cnt, (k, cnt) ∈ (obter_estatisticas s).modalidades ↔
        k ∈ s.atendimentos.map (fun r => r.modalidade) ∧
        cnt = (s.atendimentos.map (fun r => r.modalidade)).count k) ∧
      (∀ k cnt, (k, cnt) ∈ (obter_estatisticas s).status_distribuicao ↔
        k ∈ s.atendimentos.map (fun r => r.status) ∧
        cnt = (s.atendimentos.map (fun r => r.status)).count k)) := by
  refine ⟨by decide, by decide, by decide, by decide, ?_⟩
  intro s
  refine ⟨?_, ?_, ?_, ?_⟩
  · have hs := pairwise_sortBy countDescLe countDescLe_trans countDescLe_total
      (groupCounts (s.atendimentos.map (fun r => r.modalidade)))
    exact hs.imp (fun hpq => by simpa [countDescLe] using hpq)
  · have hs := pairwise_sortBy countDescLe countDescLe_trans countDescLe_total
      (groupCounts (s.atendimentos.map (fun r => r.status)))
    exact hs.imp (fun hpq => by simpa [countDescLe] using hpq)
  · intro k cnt
    show (k, cnt) ∈ sortBy countDescLe
      (groupCounts (s.atendimentos.map (fun r => r.modalidade))) ↔ _
    rw [mem_sortBy, mem_groupCounts]
  · intro k cnt
    show (k, cnt) ∈ sortBy countDescLe
      (groupCounts (s.atendimentos.map (fun r => r.status))) ↔ _
    rw [mem_sortBy, mem_groupCounts]


/-- C9 (counterexample). The claim says every character of the output lies
in `[A-Za-z0-9._-]`. Python's `\w` is Unicode-aware, so `é` in `café.pdf`
is kept verbatim and the stored name contains a character outside that
set. -/
theorem safe_filename_unicode_kept :
    ((safe_filename ("20250101_120000".toList) ("café.pdf".toList)).all
      isSafeAsciiChar) = false := by
  decide

/-- C9 (amended). `safe_filename` replaces every character outside Python's
Unicode `\w` plus `-`, `_`, `.` with `_`; for an ASCII filename the output
contains only characters of `[A-Za-z0-9._-]` (given a timestamp over that
alphabet), and two calls whose rendered timestamps differ (same rendered
length, as with `%Y%m%d_%H%M%S`) always produce distinct stored names. -/
theorem safe_filename_ascii_safe_and_unique (ts ts2 name name2 : List Char)
    (hts : ts.all isSafeAsciiChar = true)
    (hascii : name.all (fun c => decide (c.toNat < 128)) = true)
    (hlen : ts.length = ts2.length) (hne : ts ≠ ts2) :
    (safe_filename ts name).all isSafeAsciiChar = true ∧
    safe_filename ts name ≠ safe_filename ts2 name2 := by
  constructor
  · rw [safe_filename_eq, List.all_append, hts]
    have h1 : ('_' :: (name.map safeFilenameChar).take 100).all isSafeAsciiChar
        = true := by
      rw [List.all_cons]
      refine (Bool.and_eq_true _ _).mpr ⟨by decide, ?_⟩
      rw [List.all_eq_true]
      intro c hc
      have hc2 := List.take_subset _ _ hc
      obtain ⟨dch, hdch, rfl⟩ := List.mem_map.mp hc2
      have hd128 : dch.toNat < 128 := by
        simpa using List.all_eq_true.mp hascii dch hdch
      exact safeFilenameChar_ascii_safe hd128
    rw [h1]
    rfl
  · rw [safe_filename_eq, safe_filename_eq]
    intro heq
    exact hne (List.append_inj heq hlen).1

/-- C9 witness: the amended theorem at a concrete ASCII upload repeated one
second later. -/
theorem safe_filename_ascii_safe_and_unique_witness :
    ("20250101_120000".toList).all isSafeAsciiChar = true ∧
    (safe_filename ("20250101_120000".toList) ("report.pdf".toList)).all
      isSafeAsciiChar = true ∧
    safe_filename ("20250101_120000".toList) ("report.pdf".toList) ≠
      safe_filename ("20250101_120001".toList) ("report.pdf".toList) := by
  refine ⟨by decide, ?_⟩
  exact safe_filename_ascii_safe_and_unique ("20250101_120000".toList)
    ("20250101_120001".toList) ("report.pdf".toList) ("report.pdf".toList)
    (by decide) (by decide) (by decide) (by decide)

/-- C10. A patch that is empty, or whose field names all fall outside the
allow-list, makes `atualizar_atendimento` return `False` before any write:
the store (including every row's `data_atualizacao`) is untouched even when
the target id exists. -/
theorem atualizar_no_valid_fields_noop (now idA : Nat)
    (campos : List (List Char × Option (List Char))) (s : DBState)
    (hinv : ∀ kv ∈ campos, kv.1 ∉ camposValidos) :
    atualizar_atendimento now idA campos s = (false, s) := by
  have hfl : campos.filter (fun kv => camposValidos.contains kv.1) = [] :=
    List.filter_eq_nil_iff.mpr
      (fun kv hkv h => hinv kv hkv (List.elem_iff.mp h))
  unfold atualizar_atendimento
  simp only [hfl]
  by_cases hc : campos.isEmpty = true
  · simp [hc]
  · simp [hc]

/-- C10 witness: an unknown-only patch and the empty patch on the existing
row id 1. -/
theorem atualizar_no_valid_fields_noop_witness :
    (c6State.atendimentos.map (fun r => r.id)) = [1] ∧
    atualizar_atendimento 99 1 [("bar".toList, none)] c6State = (false, c6State) ∧
    atualizar_atendimento 99 1 [] c6State = (false, c6State) := by
  refine ⟨by decide, ?_, ?_⟩
  · exact atualizar_no_valid_fields_noop 99 1 [("bar".toList, none)] c6State
      (by decide)
  · exact atualizar_no_valid_fields_noop 99 1 [] c6State (by decide)

end GestaoClinica
